import Mathlib

/-!
Verification of the compression transducer of `zstd-seekable-s3`
(`src/src/compress.rs`) against its natural-language specification.

The single source file adapts the external seekable zstd codec
(`zstd_seekable::SeekableCStream`) to two consumption models: an async
stream transducer (`Compress<S>`) and a sync buffered writer
(`SeekableCompress<'a, A>`).  The codec itself is an external collaborator;
it is modelled abstractly as a state machine (`CodecModel`), faithful to the
capability interface the spec describes in section 6.  Bytes are modelled as
`List Nat`; the fixed scratch buffer `buf_out` is absorbed into the codec
model, which returns the produced scratch prefix directly (its contents are
always copied out before reuse, so this loses nothing the code observes).
`while` loops are embedded with fuel: a result of `none` means the loop ran
out of fuel (the source loop would still be running).
-/

namespace ZstdSeekableS3

/-- Modelled from the spec: `zstd_seekable::Error`, the error type of the
external codec library (spec section 4.4, a codec error detail).  The
repository never inspects the detail, only propagates the value, so the
detail is abstracted to a numeric code. -/
structure Zerror where
  detail : Nat
deriving DecidableEq

/-- Embeds `type ZstdError<A> = std::result::Result<A, zstd_seekable::Error>`
(src/src/compress.rs:125). -/
abbrev ZstdError (A : Type) : Type := Except Zerror A

/-- Modelled from the spec: the external codec handle
(`zstd_seekable::SeekableCStream`, spec section 6), an abstract state machine
over a state type.  `compress cs input` returns the bytes written into the
scratch prefix, the count of input bytes consumed, and the updated codec
state; `endStream cs` is one finalize call, returning the produced bytes and
the updated state.  On failure the embedding keeps the previous model state;
no claim observes the internal state of a failed handle. -/
structure CodecModel (σ : Type) where
  compress : σ → List Nat → Except Zerror (List Nat × Nat × σ)
  endStream : σ → Except Zerror (List Nat × σ)

/-- Embeds the struct `Compress<S>` (src/src/compress.rs:8-16).  The upstream
stream `S` is modelled as the list of byte chunks it has yet to yield (each
item is `Borrow<[u8]>`, i.e. plain bytes).  The `parking_lot::Mutex` around
the codec state is uncontended by design (spec section 5) and elided; the
scratch buffer `buf_out` is absorbed into the codec model. -/
structure Compress (σ : Type) where
  stream : List (List Nat)
  cstream : σ
  wrote_seek_table : Bool
deriving DecidableEq

/-- Embeds the loop `while input.is_empty() { ... }` of
`Compress::compress_input` (src/src/compress.rs:95-99), with fuel.  The loop
guard is `input.is_empty()` exactly as written in the source.  Arguments:
codec state, accumulator `compressed_bytes`, remaining `input`. -/
def compressLoop (m : CodecModel σ) : Nat → σ → List Nat → List Nat →
    Option (ZstdError (List Nat × σ))
  | 0, _, _, _ => none
  | fuel + 1, cs, acc, input =>
    if input.isEmpty then
      match m.compress cs input with
      | .error e => some (.error e)
      | .ok (outB, inPos, cs') => compressLoop m fuel cs' (acc ++ outB) (input.drop inPos)
    else
      some (.ok (acc, cs))

/-- Embeds `Compress::compress_input` (src/src/compress.rs:82-101): an early
return of empty bytes when the input is empty, then the accumulation loop
over the codec state held in the `cstream` field. -/
def Compress.compress_input (m : CodecModel σ) (fuel : Nat) (cs : σ)
    (input : List Nat) : Option (ZstdError (List Nat × σ)) :=
  if input.isEmpty then some (.ok ([], cs))
  else compressLoop m fuel cs [] input

/-- Embeds the loop `while out_pos > 0 { ... }` of `Compress::end_stream`
(src/src/compress.rs:112-115), with fuel.  Arguments: codec state,
accumulator `compressed_bytes`, the previous `out_pos`. -/
def endStreamLoop (m : CodecModel σ) : Nat → σ → List Nat → Nat →
    Option (ZstdError (List Nat × σ))
  | 0, _, _, _ => none
  | fuel + 1, cs, acc, outPos =>
    if outPos > 0 then
      match m.endStream cs with
      | .error e => some (.error e)
      | .ok (outB, cs') => endStreamLoop m fuel cs' (acc ++ outB) outB.length
    else
      some (.ok (acc, cs))

/-- Embeds `Compress::end_stream` (src/src/compress.rs:103-118): one initial
finalize call, then the drain loop, then `*wrote_seek_table = true`.  The
flag assignment is reached only when no call failed, because the question
mark operator propagates a failure before it.  Returns the yielded value
together with the post-state. -/
def Compress.end_stream (m : CodecModel σ) (fuel : Nat) (c : Compress σ) :
    Option (ZstdError (List Nat) × Compress σ) :=
  match m.endStream c.cstream with
  | .error e => some (.error e, c)
  | .ok (outB, cs') =>
    match endStreamLoop m fuel cs' outB outB.length with
    | none => none
    | some (.error e) => some (.error e, { c with cstream := cs' })
    | some (.ok (acc, cs'')) =>
      some (.ok acc, { c with cstream := cs'', wrote_seek_table := true })

/-- Embeds `Compress::finished` (src/src/compress.rs:120-122). -/
def Compress.finished (c : Compress σ) : Bool :=
  c.wrote_seek_table

/-- Embeds `FusedStream::is_terminated` for `Compress`
(src/src/compress.rs:172-180). -/
def Compress.is_terminated (c : Compress σ) : Bool :=
  c.wrote_seek_table

/-- Embeds the `loop` of `Compress::poll_next` (src/src/compress.rs:145-168),
recursing on the chunks the upstream has yet to yield: on upstream
exhaustion, finalize via `end_stream` and yield the result (or nothing when
it is empty); on a chunk, run `compress_input` and yield an error or a
non-empty result, looping to the next upstream item when the result is
empty.  The returned pair is (yielded element or end-of-stream, post-state).
This function is entered only while `wrote_seek_table` is false. -/
def pollLoop (m : CodecModel σ) (fuel : Nat) :
    List (List Nat) → σ → Option (Option (ZstdError (List Nat)) × Compress σ)
  | [], cs =>
    match Compress.end_stream m fuel ⟨[], cs, false⟩ with
    | none => none
    | some (.error e, c') => some (some (.error e), c')
    | some (.ok acc, c') =>
      if acc.isEmpty then some (none, c') else some (some (.ok acc), c')
  | chunk :: rest, cs =>
    match Compress.compress_input m fuel cs chunk with
    | none => none
    | some (.error e) => some (some (.error e), ⟨rest, cs, false⟩)
    | some (.ok (acc, cs')) =>
      if acc.isEmpty then pollLoop m fuel rest cs'
      else some (some (.ok acc), ⟨rest, cs', false⟩)

/-- Embeds `Compress::poll_next` (src/src/compress.rs:134-169): a transducer
that already wrote its seek table yields end-of-stream immediately, without
touching the upstream; otherwise the poll loop runs. -/
def Compress.poll_next (m : CodecModel σ) (fuel : Nat) (c : Compress σ) :
    Option (Option (ZstdError (List Nat)) × Compress σ) :=
  if c.finished then some (none, c)
  else pollLoop m fuel c.stream c.cstream

/-- Embeds the struct `SeekableCompress<'a, A>` (src/src/compress.rs:182-187).
The downstream `io::Write` sink `out` is external; per spec section 6 its
`write` accepts the full slice offered (standard blocking-write contract), so
it is modelled as a byte accumulator whose write appends the slice and
reports its length.  The per-call scratch allocation `out_buffer` is absorbed
into the codec model exactly as for `Compress`. -/
structure SeekableCompress (σ : Type) where
  cstream : σ
  out : List Nat
  wrote_seek_table : Bool
deriving DecidableEq

/-- Embeds the loop `while !buf.is_empty() { ... }` of
`SeekableCompress::write` (src/src/compress.rs:275-286), with fuel.
Arguments: codec state, bytes already forwarded to the downstream sink,
remaining `buf`.  Returns the final codec state (or the failure) together
with the bytes forwarded so far; on failure the bytes already forwarded stay
in the sink, matching the immediate `write_all` calls of the source. -/
def writeLoop (m : CodecModel σ) : Nat → σ → List Nat → List Nat →
    Option (ZstdError σ × List Nat)
  | 0, _, _, _ => none
  | fuel + 1, cs, written, buf =>
    if buf.isEmpty then some (.ok cs, written)
    else
      match m.compress cs buf with
      | .error e => some (.error e, written)
      | .ok (outB, inPos, cs') =>
        let written' := if outB.isEmpty then written else written ++ outB
        writeLoop m fuel cs' written' (buf.drop inPos)

/-- Embeds `SeekableCompress::write` (src/src/compress.rs:267-292): drains
the whole input, forwarding every non-empty produced segment to the
downstream sink, and reports `starting_len`, the original buffer length, not
the compressed byte count. -/
def SeekableCompress.write (m : CodecModel σ) (fuel : Nat)
    (s : SeekableCompress σ) (buf : List Nat) :
    Option (ZstdError Nat × SeekableCompress σ) :=
  match writeLoop m fuel s.cstream [] buf with
  | none => none
  | some (.error e, written) => some (.error e, { s with out := s.out ++ written })
  | some (.ok cs', written) =>
    some (.ok buf.length, { s with cstream := cs', out := s.out ++ written })

/-- Embeds the `loop` of `SeekableCompress::end_compression_internal`
(src/src/compress.rs:204-219): each iteration makes one finalize call, stops
at the first zero-length result, and otherwise forwards the produced bytes
to the downstream sink, adding the count the sink reports to `wrote`.
Returns (result, bytes forwarded to the sink, final codec state).  On a
failing finalize call the partial `wrote` count is discarded by the question
mark operator, but bytes already forwarded stay in the sink. -/
def endCompLoop (m : CodecModel σ) : Nat → σ →
    Option (ZstdError Nat × List Nat × σ)
  | 0, _ => none
  | fuel + 1, cs =>
    match m.endStream cs with
    | .error e => some (.error e, [], cs)
    | .ok (outB, cs') =>
      if outB.length = 0 then some (.ok 0, [], cs')
      else
        match endCompLoop m fuel cs' with
        | none => none
        | some (.error e, delta, cs'') => some (.error e, outB ++ delta, cs'')
        | some (.ok w, delta, cs'') => some (.ok (outB.length + w), outB ++ delta, cs'')

/-- Embeds `SeekableCompress::end_compression_internal` applied to the sink
model: runs the finalize loop and appends whatever it forwarded to the
downstream sink held in the `out` field. -/
def SeekableCompress.end_compression_internal (m : CodecModel σ) (fuel : Nat)
    (s : SeekableCompress σ) : Option (ZstdError Nat × SeekableCompress σ) :=
  match endCompLoop m fuel s.cstream with
  | none => none
  | some (r, delta, cs') => some (r, { s with cstream := cs', out := s.out ++ delta })

/-- Embeds `SeekableCompress::end_compression` (src/src/compress.rs:231-239):
runs the internal finalize, then sets `wrote_seek_table` whatever the result
was, and returns the result.  In Rust this method takes `self` by value, so
no second call can be made on the instance; the embedding returns the
post-state so that the subsequent `Drop` can be analysed. -/
def SeekableCompress.end_compression (m : CodecModel σ) (fuel : Nat)
    (s : SeekableCompress σ) : Option (ZstdError Nat × SeekableCompress σ) :=
  match s.end_compression_internal m fuel with
  | none => none
  | some (r, s') => some (r, { s' with wrote_seek_table := true })

/-- Embeds `impl Drop for SeekableCompress` (src/src/compress.rs:251-261):
when the seek table was never written, run the internal finalize and discard
its result, including any failure (the return type carries no error, so drop
can raise no fault); when it was written, do nothing. -/
def SeekableCompress.drop (m : CodecModel σ) (fuel : Nat)
    (s : SeekableCompress σ) : Option (SeekableCompress σ) :=
  if s.wrote_seek_table then some s
  else
    match s.end_compression_internal m fuel with
    | none => none
    | some (_r, s') => some s'

/-- Modelled from the spec: the compress drain of section 4.1 — repeatedly
call the codec compress operation on the remaining unconsumed suffix,
appending the produced scratch prefix, until the cursor reaches the end of
the input; empty input short-circuits without invoking the codec.  Stated
for comparison with the source drains. -/
def drainCompress (m : CodecModel σ) : Nat → σ → List Nat →
    Option (ZstdError (List Nat × σ))
  | 0, _, _ => none
  | fuel + 1, cs, input =>
    if input.isEmpty then some (.ok ([], cs))
    else
      match m.compress cs input with
      | .error e => some (.error e)
      | .ok (outB, inPos, cs') =>
        match drainCompress m fuel cs' (input.drop inPos) with
        | none => none
        | some (.error e) => some (.error e)
        | some (.ok (acc, cs'')) => some (.ok (outB ++ acc, cs''))

/-- Modelled from the spec: the finalize drain of section 4.1 — repeatedly
call the codec finalize operation, appending produced bytes, until a call
reports zero bytes produced.  Stated for comparison with the source drains. -/
def drainFinalize (m : CodecModel σ) : Nat → σ →
    Option (ZstdError (List Nat × σ))
  | 0, _ => none
  | fuel + 1, cs =>
    match m.endStream cs with
    | .error e => some (.error e)
    | .ok (outB, cs') =>
      if outB.isEmpty then some (.ok ([], cs'))
      else
        match drainFinalize m fuel cs' with
        | none => none
        | some (.error e) => some (.error e)
        | some (.ok (acc, cs'')) => some (.ok (outB ++ acc, cs''))

/-- Modelled from the spec: the error wrapper of section 4.4, a two-variant
tagged union of a codec failure and an upstream failure, generic over the
upstream error type.  Stated for comparison with the source alias
`ZstdError`. -/
inductive SpecZstdError (E : Type) : Type
  | codecFailure (detail : Zerror)
  | upstreamFailure (e : E)

/-- Drives `Compress.poll_next` until it yields end-of-stream, collecting
every yielded element in order; `polls` bounds the number of polls. -/
def runCompress (m : CodecModel σ) (fuel : Nat) :
    Nat → Compress σ → Option (List (ZstdError (List Nat)) × Compress σ)
  | 0, _ => none
  | polls + 1, c =>
    match c.poll_next m fuel with
    | none => none
    | some (none, c') => some ([], c')
    | some (some r, c') =>
      match runCompress m fuel polls c' with
      | none => none
      | some (rs, c'') => some (r :: rs, c'')

/-- Concatenation of the successful elements of a transducer run. -/
def okConcat (rs : List (ZstdError (List Nat))) : List Nat :=
  (rs.filterMap fun r => match r with | .ok b => some b | .error _ => none).flatten

/-- Drives `SeekableCompress.write` over a list of chunks and then
`end_compression`, returning the final state (the downstream sink contents
are its `out` field). -/
def runSync (m : CodecModel σ) (fuel : Nat) :
    List (List Nat) → SeekableCompress σ → Option (ZstdError (SeekableCompress σ))
  | [], s =>
    match s.end_compression m fuel with
    | none => none
    | some (.error e, _) => some (.error e)
    | some (.ok _, s') => some (.ok s')
  | chunk :: rest, s =>
    match s.write m fuel chunk with
    | none => none
    | some (.error e, _) => some (.error e)
    | some (.ok _, s') => runSync m fuel rest s'

/-- A concrete codec instance for witnesses: compress echoes its input,
consuming all of it; finalize emits the single byte 7 once (the state
records whether finalize already ran) and zero bytes afterwards. -/
def echoCodec : CodecModel Bool where
  compress := fun cs input => .ok (input, input.length, cs)
  endStream := fun cs => if cs then .ok ([], true) else .ok ([7], true)

/-- A concrete codec instance for witnesses: compress echoes and consumes
exactly one byte per call, to exercise partial consumption; finalize
produces nothing. -/
def byteCodec : CodecModel Unit where
  compress := fun _ input => .ok (input.take 1, min 1 input.length, ())
  endStream := fun _ => .ok ([], ())

/-- A concrete codec instance whose compress operation always fails. -/
def failCompressCodec : CodecModel Unit where
  compress := fun _ _ => .error ⟨0⟩
  endStream := fun _ => .ok ([], ())

/-- A concrete codec instance whose finalize operation always fails. -/
def failFinalizeCodec : CodecModel Unit where
  compress := fun _ input => .ok ([], input.length, ())
  endStream := fun _ => .error ⟨1⟩

/-! ## Helper lemmas -/

/-- A transducer that already wrote its seek table yields end-of-stream and
leaves its state untouched. -/
theorem poll_next_terminated (m : CodecModel σ) (fuel : Nat) (c : Compress σ)
    (h : c.wrote_seek_table = true) :
    Compress.poll_next m fuel c = some (none, c) := by
  simp [Compress.poll_next, Compress.finished, h]

/-- When `end_stream` yields an error, the seek-table flag is unchanged. -/
theorem end_stream_error_flag (m : CodecModel σ) (fuel : Nat) (c : Compress σ)
    (e : Zerror) (c' : Compress σ)
    (h : Compress.end_stream m fuel c = some (.error e, c')) :
    c'.wrote_seek_table = c.wrote_seek_table := by
  rw [Compress.end_stream] at h
  split at h
  · simp at h
    rw [← h.2]
  · split at h
    · exact absurd h (by simp)
    · simp at h
      rw [← h.2]
    · simp at h

/-- The `while out_pos > 0` loop of `end_stream`, entered with a positive
previous count, computes exactly the finalize drain of the spec, appended to
the accumulator. -/
theorem endStreamLoop_drain (m : CodecModel σ) :
    ∀ (fuel : Nat) (cs : σ) (A : List Nat) (p : Nat) (res : List Nat) (csF : σ),
      0 < p →
      endStreamLoop m fuel cs A p = some (.ok (res, csF)) →
      ∃ w, drainFinalize m fuel cs = some (.ok (w, csF)) ∧ res = A ++ w := by
  intro fuel
  induction fuel with
  | zero =>
    intro cs A p res csF hp h
    simp [endStreamLoop] at h
  | succ f ih =>
    intro cs A p res csF hp h
    rw [endStreamLoop, if_pos hp] at h
    split at h
    · simp at h
    · rename_i o₂ cs₂ hc
      by_cases ho : o₂ = []
      · subst ho
        cases f with
        | zero => simp [endStreamLoop] at h
        | succ g =>
          simp only [endStreamLoop, List.length_nil, gt_iff_lt, Nat.lt_irrefl,
            if_false, List.append_nil, Option.some.injEq, Except.ok.injEq,
            Prod.mk.injEq] at h
          refine ⟨[], ?_, ?_⟩
          · rw [drainFinalize, hc]
            simp [h.2]
          · rw [← h.1]
            simp
      · have hp₂ : 0 < o₂.length := by
          cases o₂ with
          | nil => exact absurd rfl ho
          | cons y ys => simp
        obtain ⟨w₂, hw, hres⟩ := ih cs₂ (A ++ o₂) o₂.length res csF hp₂ h
        refine ⟨o₂ ++ w₂, ?_, ?_⟩
        · rw [drainFinalize, hc]
          simp only [List.isEmpty_eq_true, ho, if_false, hw]
        · rw [hres, List.append_assoc]

/-- When `end_stream` succeeds, its result is exactly the finalize drain of
the spec over the codec state, the seek-table flag is set, and the upstream
is untouched. -/
theorem end_stream_drain (m : CodecModel σ) (fuel : Nat) (c : Compress σ)
    (acc : List Nat) (c' : Compress σ)
    (h : Compress.end_stream m fuel c = some (.ok acc, c')) :
    drainFinalize m (fuel + 1) c.cstream = some (.ok (acc, c'.cstream)) ∧
    c'.wrote_seek_table = true ∧ c'.stream = c.stream := by
  rw [Compress.end_stream] at h
  split at h
  · simp at h
  · rename_i o₁ cs₁ hc
    split at h
    · exact absurd h (by simp)
    · simp at h
    · rename_i acc₀ cs₂ hl
      simp at h
      obtain ⟨hacc, hc'⟩ := h
      subst hacc
      by_cases ho : o₁ = []
      · subst ho
        cases fuel with
        | zero => simp [endStreamLoop] at hl
        | succ g =>
          simp only [endStreamLoop, List.length_nil, gt_iff_lt, Nat.lt_irrefl,
            if_false, Option.some.injEq, Except.ok.injEq, Prod.mk.injEq] at hl
          rw [drainFinalize, hc]
          simp [← hc', ← hl.1, hl.2]
      · have hp : 0 < o₁.length := by
          cases o₁ with
          | nil => exact absurd rfl ho
          | cons y ys => simp
        obtain ⟨w, hw, hres⟩ := endStreamLoop_drain m fuel cs₁ o₁ o₁.length acc₀ cs₂ hp hl
        rw [drainFinalize, hc]
        simp only [List.isEmpty_eq_true, ho, if_false, hw, ← hc']
        simp [hres]

/-- The write loop of the sync sink forwards to the downstream sink exactly
the bytes the compress drain of the spec produces, in order. -/
theorem writeLoop_drain (m : CodecModel σ) :
    ∀ (fuel : Nat) (cs : σ) (written buf : List Nat) (cs' : σ)
      (written' : List Nat),
      writeLoop m fuel cs written buf = some (.ok cs', written') →
      ∃ w, drainCompress m fuel cs buf = some (.ok (w, cs')) ∧
        written' = written ++ w := by
  intro fuel
  induction fuel with
  | zero =>
    intro cs written buf cs' written' h
    simp [writeLoop] at h
  | succ f ih =>
    intro cs written buf cs' written' h
    rw [writeLoop] at h
    by_cases hb : buf.isEmpty
    · rw [if_pos hb] at h
      simp at h
      refine ⟨[], ?_, ?_⟩
      · rw [drainCompress, if_pos hb, h.1]
      · rw [← h.2]
        simp
    · rw [if_neg hb] at h
      split at h
      · simp at h
      · rename_i outB inPos cs₂ hc
        simp only at h
        obtain ⟨w₂, hw, hwr⟩ := ih cs₂ _ (buf.drop inPos) cs' written' h
        refine ⟨outB ++ w₂, ?_, ?_⟩
        · rw [drainCompress, if_neg hb]
          simp [hc, hw]
        · rw [hwr]
          by_cases ho : outB.isEmpty
          · have ho' : outB = [] := by simpa using ho
            simp [ho, ho']
          · simp [ho, List.append_assoc]

/-- The finalize loop of the sync sink forwards to the downstream sink
exactly the bytes the finalize drain of the spec produces, and the count it
reports is their total length. -/
theorem endCompLoop_drain (m : CodecModel σ) :
    ∀ (fuel : Nat) (cs : σ) (w : Nat) (delta : List Nat) (cs' : σ),
      endCompLoop m fuel cs = some (.ok w, delta, cs') →
      drainFinalize m fuel cs = some (.ok (delta, cs')) ∧ w = delta.length := by
  intro fuel
  induction fuel with
  | zero =>
    intro cs w delta cs' h
    simp [endCompLoop] at h
  | succ f ih =>
    intro cs w delta cs' h
    rw [endCompLoop] at h
    split at h
    · simp at h
    · rename_i outB cs₂ hc
      by_cases hlen : outB.length = 0
      · rw [if_pos hlen] at h
        have ho : outB = [] := List.length_eq_zero.mp hlen
        simp only [Option.some.injEq, Prod.mk.injEq, Except.ok.injEq] at h
        obtain ⟨h1, h2, h3⟩ := h
        subst h2
        subst h3
        constructor
        · rw [drainFinalize]
          simp [hc, ho]
        · simp [← h1]
      · rw [if_neg hlen] at h
        split at h
        · exact absurd h (by simp)
        · simp at h
        · rename_i w₂ d₂ cs₃ hr
          simp only [Option.some.injEq, Prod.mk.injEq, Except.ok.injEq] at h
          obtain ⟨h1, h2, h3⟩ := h
          subst h2
          subst h3
          have hih := ih cs₂ w₂ d₂ cs₃ hr
          have ho : ¬ outB = [] := fun hh => hlen (by simp [hh])
          constructor
          · rw [drainFinalize]
            simp [hc, ho, hih.1]
          · rw [← h1, hih.2]
            simp

/-- If the poll loop yields end-of-stream, the seek table has been written. -/
theorem pollLoop_none_flag (m : CodecModel σ) (fuel : Nat) :
    ∀ (l : List (List Nat)) (cs : σ) (c' : Compress σ),
      pollLoop m fuel l cs = some (none, c') → c'.wrote_seek_table = true := by
  intro l
  induction l with
  | nil =>
    intro cs c' h
    rw [pollLoop] at h
    split at h
    · exact absurd h (by simp)
    · simp at h
    · rename_i acc c₀ he
      split at h
      · simp at h
        rw [← h]
        exact (end_stream_drain m fuel ⟨[], cs, false⟩ acc c₀ he).2.1
      · simp at h
  | cons chunk rest ih =>
    intro cs c' h
    rw [pollLoop] at h
    split at h
    · exact absurd h (by simp)
    · simp at h
    · rename_i acc cs₂ hci
      split at h
      · exact ih cs₂ c' h
      · simp at h

/-- If the poll loop yields an error element, the seek table has not been
written: the transducer stays active. -/
theorem pollLoop_error_flag (m : CodecModel σ) (fuel : Nat) :
    ∀ (l : List (List Nat)) (cs : σ) (e : Zerror) (c' : Compress σ),
      pollLoop m fuel l cs = some (some (.error e), c') →
      c'.wrote_seek_table = false := by
  intro l
  induction l with
  | nil =>
    intro cs e c' h
    rw [pollLoop] at h
    split at h
    · exact absurd h (by simp)
    · rename_i e₂ c₀ he
      simp at h
      rw [← h.2]
      exact end_stream_error_flag m fuel ⟨[], cs, false⟩ e₂ c₀ he
    · rename_i acc c₀ he
      split at h
      · simp at h
      · simp at h
  | cons chunk rest ih =>
    intro cs e c' h
    rw [pollLoop] at h
    split at h
    · exact absurd h (by simp)
    · simp at h
      rw [← h.2]
    · rename_i acc cs₂ hci
      split at h
      · exact ih cs₂ e c' h
      · simp at h

/-! ## Claim theorems -/

/-- Claim C1: the claim states that for every non-empty input chunk the
compress drain repeatedly invokes the codec compress operation on the
remaining unconsumed suffix, accumulating output, until the whole input is
consumed.  In the source the loop guard is inverted
(`while input.is_empty()`, src/src/compress.rs:95), so for a non-empty input
the loop body never runs: for every codec model, fuel and state the drain
returns empty output, leaves the codec state untouched and silently
discards the input — shown in general, and at the concrete input `[1, 2]`
against a codec that would echo it. -/
theorem c1_compress_drain_never_consumes :
    (∀ (σ : Type) (m : CodecModel σ) (fuel : Nat) (cs : σ) (x : Nat)
        (xs : List Nat),
      Compress.compress_input m (fuel + 1) cs (x :: xs) = some (.ok ([], cs))) ∧
    Compress.compress_input echoCodec 5 true [1, 2] = some (.ok ([], true)) := by
  constructor
  · intro σ m fuel cs x xs
    simp [Compress.compress_input, compressLoop]
  · rfl

/-- Claim C2 counterexample: with a codec whose finalize operation fails, the
async finalize drain `end_stream` returns the error while `wrote_seek_table`
stays false, and the next poll runs the finalize drain again, yielding the
same error — refuting the claim that the flag is set whether the drain
succeeds or fails. -/
theorem c2_counterexample :
    Compress.end_stream failFinalizeCodec 5 (⟨[], (), false⟩ : Compress Unit) =
      some (.error ⟨1⟩, ⟨[], (), false⟩) ∧
    (⟨[], (), false⟩ : Compress Unit).wrote_seek_table = false ∧
    Compress.poll_next failFinalizeCodec 5 (⟨[], (), false⟩ : Compress Unit) =
      some (some (.error ⟨1⟩), ⟨[], (), false⟩) :=
  ⟨rfl, rfl, rfl⟩

/-- Claim C2 (amended): when the async finalize drain succeeds the finalized
flag is set to true; when it fails the error is propagated and the flag is
left unchanged (so finalize may be retried by a later poll). -/
theorem c2_flag_set_only_on_success :
    ∀ (σ : Type) (m : CodecModel σ) (fuel : Nat) (c : Compress σ)
      (acc : List Nat) (e : Zerror) (c' c'' : Compress σ),
      (Compress.end_stream m fuel c = some (.ok acc, c') →
        c'.wrote_seek_table = true) ∧
      (Compress.end_stream m fuel c = some (.error e, c'') →
        c''.wrote_seek_table = c.wrote_seek_table) := by
  intro σ m fuel c acc e c' c''
  exact ⟨fun h => (end_stream_drain m fuel c acc c' h).2.1,
         fun h => end_stream_error_flag m fuel c e c'' h⟩

/-- Claim C2 witness: the amended statement evaluated at a succeeding and at
a failing concrete finalize. -/
theorem c2_witness :
    (⟨[], true, true⟩ : Compress Bool).wrote_seek_table = true ∧
    (⟨[], (), false⟩ : Compress Unit).wrote_seek_table = false :=
  ⟨(c2_flag_set_only_on_success Bool echoCodec 5 ⟨[], false, false⟩ [7] ⟨0⟩
      ⟨[], true, true⟩ ⟨[], true, true⟩).1 rfl,
   (c2_flag_set_only_on_success Unit failFinalizeCodec 5 ⟨[], (), false⟩ []
      ⟨1⟩ ⟨[], (), false⟩ ⟨[], (), false⟩).2 rfl⟩

/-- Claim C3: the claim states that the concatenation of the successful
elements of the async transducer equals the bytes the sync sink writes
downstream for the same chunks followed by explicit finalize.  Because the
async compress drain never consumes input (see C1), the async side drops the
chunk bytes: on chunks `[[1, 2]]` with an echoing codec the async
concatenation is `[7]` (the finalize tail only) while the sync sink writes
`[1, 2, 7]`. -/
theorem c3_async_sync_outputs_differ :
    runCompress echoCodec 5 4 (⟨[[1, 2]], false, false⟩ : Compress Bool) =
      some ([.ok [7]], ⟨[], true, true⟩) ∧
    okConcat [.ok [7]] = [7] ∧
    runSync echoCodec 5 [[1, 2]] (⟨false, [], false⟩ : SeekableCompress Bool) =
      some (.ok ⟨true, [1, 2, 7], true⟩) ∧
    ([7] : List Nat) ≠ [1, 2, 7] :=
  ⟨rfl, rfl, rfl, by decide⟩

/-- Claim C4: once `poll_next` has yielded end-of-stream, the seek-table
flag is set, and every subsequent poll — with any codec, any fuel and any
upstream contents — immediately yields end-of-stream with the state
untouched, never polling the upstream again (the result does not depend on
the `stream` field and does not consume it). -/
theorem c4_poll_after_none_always_none :
    ∀ (σ : Type) (m : CodecModel σ) (fuel : Nat) (c c' : Compress σ),
      Compress.poll_next m fuel c = some (none, c') →
      c'.wrote_seek_table = true ∧
      ∀ (m' : CodecModel σ) (fuel' : Nat) (s : List (List Nat)),
        Compress.poll_next m' fuel' { c' with stream := s } =
          some (none, { c' with stream := s }) := by
  intro σ m fuel c c' h
  have hflag : c'.wrote_seek_table = true := by
    rw [Compress.poll_next] at h
    by_cases hf : c.finished
    · rw [if_pos hf] at h
      simp at h
      rw [← h]
      exact hf
    · rw [if_neg hf] at h
      exact pollLoop_none_flag m fuel c.stream c.cstream c' h
  exact ⟨hflag, fun m' fuel' s => poll_next_terminated m' fuel' _ hflag⟩

/-- Claim C4 witness: a concrete poll that yields end-of-stream, followed by
a poll with different codec, fuel and upstream contents that yields
end-of-stream again with the state untouched. -/
theorem c4_witness :
    (⟨[], true, true⟩ : Compress Bool).wrote_seek_table = true ∧
    Compress.poll_next echoCodec 2 (⟨[[9]], true, true⟩ : Compress Bool) =
      some (none, ⟨[[9]], true, true⟩) := by
  have h := c4_poll_after_none_always_none Bool echoCodec 5 ⟨[], true, false⟩
    ⟨[], true, true⟩ rfl
  exact ⟨h.1, h.2 echoCodec 2 [[9]]⟩

/-- Claim C5: when the sync sink `write` returns successfully it reports
exactly the full input length as consumed, and the downstream sink has
received exactly the bytes of the compress drain of the spec (every
non-empty produced segment, in order), with the codec advanced accordingly —
the caller never re-supplies a remainder. -/
theorem c5_write_consumes_whole_input :
    ∀ (σ : Type) (m : CodecModel σ) (fuel : Nat) (s : SeekableCompress σ)
      (buf : List Nat) (n : Nat) (s' : SeekableCompress σ),
      SeekableCompress.write m fuel s buf = some (.ok n, s') →
      n = buf.length ∧
      ∃ w cs', drainCompress m fuel s.cstream buf = some (.ok (w, cs')) ∧
        s' = ⟨cs', s.out ++ w, s.wrote_seek_table⟩ := by
  intro σ m fuel s buf n s' h
  rw [SeekableCompress.write] at h
  split at h
  · exact absurd h (by simp)
  · simp at h
  · rename_i cs₂ written hw
    simp at h
    obtain ⟨hn, hs⟩ := h
    obtain ⟨w, hdrain, hww⟩ := writeLoop_drain m fuel s.cstream [] buf cs₂ written hw
    constructor
    · omega
    · refine ⟨w, cs₂, hdrain, ?_⟩
      rw [← hs]
      simp [hww]

/-- Claim C5 witness: writing `[1, 2]` through a codec that consumes one
byte per call reports 2 bytes consumed and forwards the drained bytes. -/
theorem c5_witness :
    (2 : Nat) = ([1, 2] : List Nat).length ∧
    ∃ w cs', drainCompress byteCodec 3 () [1, 2] = some (.ok (w, cs')) ∧
      (⟨(), [1, 2], false⟩ : SeekableCompress Unit) =
        ⟨cs', ([] : List Nat) ++ w, false⟩ :=
  c5_write_consumes_whole_input Unit byteCodec 3 ⟨(), [], false⟩ [1, 2] 2
    ⟨(), [1, 2], false⟩ rfl

/-- Claim C6: the finalize drain stops exactly at the first zero-byte
finalize call — both the sync sink internal finalize and the async
`end_stream` compute exactly the finalize drain of the spec — and the sync
sink writes all produced bytes to the downstream sink, returning their
count. -/
theorem c6_finalize_drain_stops_at_zero :
    ∀ (σ : Type) (m : CodecModel σ) (fuel : Nat) (s : SeekableCompress σ)
      (w : Nat) (s' : SeekableCompress σ) (c : Compress σ) (acc : List Nat)
      (c' : Compress σ),
      (SeekableCompress.end_compression_internal m fuel s = some (.ok w, s') →
        ∃ delta cs', drainFinalize m fuel s.cstream = some (.ok (delta, cs')) ∧
          w = delta.length ∧ s' = ⟨cs', s.out ++ delta, s.wrote_seek_table⟩) ∧
      (Compress.end_stream m fuel c = some (.ok acc, c') →
        drainFinalize m (fuel + 1) c.cstream = some (.ok (acc, c'.cstream))) := by
  intro σ m fuel s w s' c acc c'
  constructor
  · intro h
    rw [SeekableCompress.end_compression_internal] at h
    split at h
    · exact absurd h (by simp)
    · rename_i r delta cs₂ hloop
      simp at h
      obtain ⟨hr, hs⟩ := h
      rw [hr] at hloop
      obtain ⟨hd, hw2⟩ := endCompLoop_drain m fuel s.cstream w delta cs₂ hloop
      exact ⟨delta, cs₂, hd, hw2, hs.symm⟩
  · intro h
    exact (end_stream_drain m fuel c acc c' h).1

/-- Claim C6 witness: the sync internal finalize and the async `end_stream`
evaluated against a codec that emits `[7]` once and then zero bytes. -/
theorem c6_witness :
    (∃ delta cs', drainFinalize echoCodec 5 false = some (.ok (delta, cs')) ∧
      1 = delta.length ∧
      (⟨true, [7], false⟩ : SeekableCompress Bool) =
        ⟨cs', ([] : List Nat) ++ delta, false⟩) ∧
    drainFinalize echoCodec 6 false = some (.ok ([7], true)) := by
  have h := c6_finalize_drain_stops_at_zero Bool echoCodec 5 ⟨false, [], false⟩
    1 ⟨true, [7], false⟩ ⟨[], false, false⟩ [7] ⟨[], true, true⟩
  exact ⟨h.1 rfl, h.2 rfl⟩

/-- Claim C7: the codec finalize sequence runs at most once per sync sink
lifecycle: `end_compression` (which consumes the instance in Rust) marks the
instance finalized whatever its result, after which `drop` — under any codec
and fuel — does nothing and raises no fault; and on a non-finalized
instance, `drop` is exactly the internal finalize with its result, error
included, discarded (its type carries no error, so disposal never raises). -/
theorem c7_finalize_at_most_once :
    ∀ (σ : Type) (m : CodecModel σ) (fuel : Nat) (s : SeekableCompress σ)
      (r : ZstdError Nat) (s' : SeekableCompress σ),
      (SeekableCompress.end_compression m fuel s = some (r, s') →
        s'.wrote_seek_table = true ∧
        ∀ (m' : CodecModel σ) (fuel' : Nat),
          SeekableCompress.drop m' fuel' s' = some s') ∧
      (s.wrote_seek_table = false →
        SeekableCompress.drop m fuel s =
          (SeekableCompress.end_compression_internal m fuel s).map Prod.snd) := by
  intro σ m fuel s r s'
  constructor
  · intro h
    rw [SeekableCompress.end_compression] at h
    split at h
    · exact absurd h (by simp)
    · rename_i r₀ s₀ hint
      simp at h
      obtain ⟨hr, hs⟩ := h
      have hflag : s'.wrote_seek_table = true := by rw [← hs]
      exact ⟨hflag, fun m' fuel' => by rw [SeekableCompress.drop, if_pos hflag]⟩
  · intro hf
    rw [SeekableCompress.drop, if_neg (by simp [hf])]
    cases hint : SeekableCompress.end_compression_internal m fuel s with
    | none => simp [hint]
    | some p =>
      obtain ⟨r₀, s₀⟩ := p
      simp [hint]

/-- Claim C7 witness: after `end_compression` under a codec whose finalize
fails, the instance is marked finalized and `drop` leaves it untouched. -/
theorem c7_witness :
    (⟨(), [], true⟩ : SeekableCompress Unit).wrote_seek_table = true ∧
    SeekableCompress.drop failFinalizeCodec 3
      (⟨(), [], true⟩ : SeekableCompress Unit) = some ⟨(), [], true⟩ := by
  have h := (c7_finalize_at_most_once Unit failFinalizeCodec 3 ⟨(), [], false⟩
    (.error ⟨1⟩) ⟨(), [], true⟩).1 rfl
  exact ⟨h.1, h.2 failFinalizeCodec 3⟩

/-- Claim C8: an empty input chunk produces zero bytes of output through
both models without invoking the codec: the async drain returns empty bytes
with the codec state untouched, and the sync `write` reports 0 consumed with
the whole sink state (codec, downstream bytes, flag) unchanged. -/
theorem c8_empty_chunk_no_codec_call :
    ∀ (σ : Type) (m : CodecModel σ) (fuel : Nat) (cs : σ)
      (s : SeekableCompress σ),
      Compress.compress_input m fuel cs [] = some (.ok ([], cs)) ∧
      SeekableCompress.write m (fuel + 1) s [] = some (.ok 0, s) := by
  intro σ m fuel cs s
  constructor
  · simp [Compress.compress_input]
  · rw [SeekableCompress.write, writeLoop]
    simp

/-- Claim C8 witness: the empty chunk evaluated through both models at a
concrete codec and sink state. -/
theorem c8_witness :
    Compress.compress_input byteCodec 3 () [] = some (.ok ([], ())) ∧
    SeekableCompress.write byteCodec 4 (⟨(), [], false⟩ : SeekableCompress Unit)
      [] = some (.ok 0, ⟨(), [], false⟩) :=
  c8_empty_chunk_no_codec_call Unit byteCodec 3 () ⟨(), [], false⟩

/-- Claim C9 counterexample: the claim says the transducer error type is a
two-variant tagged union `CodecFailure | UpstreamFailure(E)`, generic over
the upstream error type `E`.  The source error type is the fixed
`zstd_seekable::Error` (`Zerror`): taking the concrete upstream error type
`E := Set Zerror`, no equivalence between `Zerror` and the claimed union can
exist (the upstream-failure injection would contradict Cantor), so the
source type is not the claimed generic union. -/
theorem c9_counterexample :
    IsEmpty (Zerror ≃ SpecZstdError (Set Zerror)) := by
  refine ⟨fun e => ?_⟩
  refine Function.cantor_injective
    (fun s : Set Zerror => e.symm (SpecZstdError.upstreamFailure s)) ?_
  intro s t hst
  have h2 : (SpecZstdError.upstreamFailure s : SpecZstdError (Set Zerror)) =
      SpecZstdError.upstreamFailure t := e.symm.injective hst
  injection h2

/-- Claim C9 (amended): the transducer error type is the fixed codec error
type — `ZstdError A` is definitionally `Result<A, zstd_seekable::Error>` —
with no upstream-failure variant; upstream items are plain byte chunks that
cannot carry errors, and every error element the transducer yields leaves
`wrote_seek_table` false, so the stream stays active. -/
theorem c9_errors_are_codec_only :
    (ZstdError (List Nat) = Except Zerror (List Nat)) ∧
    ∀ (σ : Type) (m : CodecModel σ) (fuel : Nat) (c : Compress σ) (e : Zerror)
      (c' : Compress σ),
      Compress.poll_next m fuel c = some (some (.error e), c') →
      c'.wrote_seek_table = false := by
  refine ⟨rfl, ?_⟩
  intro σ m fuel c e c' h
  rw [Compress.poll_next] at h
  by_cases hf : c.finished
  · rw [if_pos hf] at h
    simp at h
  · rw [if_neg hf] at h
    exact pollLoop_error_flag m fuel c.stream c.cstream e c' h

/-- Claim C9 witness: a concrete poll yielding a codec error element leaves
the flag false. -/
theorem c9_witness :
    (⟨[], (), false⟩ : Compress Unit).wrote_seek_table = false :=
  c9_errors_are_codec_only.2 Unit failFinalizeCodec 3 ⟨[], (), false⟩ ⟨1⟩
    ⟨[], (), false⟩ rfl

/-- Claim C10: the claim says a codec error from the compress drain is
yielded as one element with the finalized flag left false.  The error branch
is dead code: because the drain loop guard is inverted (see C1) the drain
never invokes the codec, so even against a codec whose compress always fails
the transducer silently discards the chunk, finalizes, and yields
end-of-stream with the flag set — no error element is ever produced from
compression. -/
theorem c10_compress_error_branch_dead :
    failCompressCodec.compress () [1, 2] = .error ⟨0⟩ ∧
    Compress.poll_next failCompressCodec 5
      (⟨[[1, 2]], (), false⟩ : Compress Unit) = some (none, ⟨[], (), true⟩) :=
  ⟨rfl, rfl⟩

end ZstdSeekableS3
